import Mathlib

/-!
Shallow embedding of `components/PointCloudAnimation.tsx`: the point-cloud
landing-page animation.  Vertices and edges are embedded as Lean structures,
JavaScript numbers as rationals, `Math.random()` as an explicit draw stream
`rand : Nat → ℚ` consumed by an index counter, and the GSAP tweens as explicit
easing functions of normalized time.  Machine floating point is replaced by
exact rational arithmetic; the nearest-vertex search compares squared
Euclidean distances, which orders pairs exactly as the source's
`distanceTo` comparison of square roots does.
-/

namespace PointCloud

/-- A 3D vector (`THREE.Vector3` restricted to its coordinate data). -/
structure V3 where
  x : ℚ
  y : ℚ
  z : ℚ
deriving DecidableEq

/-- The `Vertex` interface of the source. -/
structure Vertex where
  position : V3
  targetPosition : V3
  initialPosition : V3
  connections : List Nat
  glowing : Bool
  glowIntensity : ℚ
deriving DecidableEq

/-- The `Edge` interface of the source.  `from` is a Lean keyword, hence the
guillemets. -/
structure Edge where
  «from» : Nat
  «to» : Nat
  glowing : Bool
  glowIntensity : ℚ
deriving DecidableEq

/-- An RGB color (`THREE.Color` data, channels in `[0,1]`). -/
structure Color where
  r : ℚ
  g : ℚ
  b : ℚ
deriving DecidableEq

-- Configuration constants of the component.
def numVertices : Nat := 50
def numConnections : Nat := 3
def cloudRadius : ℚ := 5
def circleRadius : ℚ := 4
def formingDelay : ℚ := 2
def formingDuration : ℚ := 15
def glowDuration : ℚ := 5/2

/-- `0x8a9ba8`, channel bytes divided by 255 as `THREE.Color` does. -/
def mattColor : Color := ⟨138/255, 155/255, 168/255⟩

/-- `0xffd700`. -/
def glowColor : Color := ⟨255/255, 215/255, 0/255⟩

/-- Out-of-range list access placeholder for `getD`. -/
def dfltVertex : Vertex := ⟨⟨0, 0, 0⟩, ⟨0, 0, 0⟩, ⟨0, 0, 0⟩, [], false, 0⟩

/-- `vertices[i].connections` (empty for an out-of-range index). -/
def connOf (vs : List Vertex) (i : Nat) : List Nat :=
  (vs.getD i dfltVertex).connections

/-! ## Graph Builder (`initializePointCloud`, lines 104-170) -/

/-- The vertex construction loop body: position drawn as
`(random()-0.5)*cloudRadius` on x and y and half that spread on z, and
`initialPosition`/`targetPosition` both cloned from `position`. -/
def mkVertex (rand : Nat → ℚ) (i : Nat) : Vertex :=
  let p : V3 :=
    ⟨(rand (3 * i) - 1/2) * cloudRadius,
     (rand (3 * i + 1) - 1/2) * cloudRadius,
     (rand (3 * i + 2) - 1/2) * cloudRadius * (1/2)⟩
  { position := p, initialPosition := p, targetPosition := p,
    connections := [], glowing := false, glowIntensity := 0 }

def initialVertices (rand : Nat → ℚ) : List Vertex :=
  (List.range numVertices).map (mkVertex rand)

/-- Squared Euclidean distance; the source compares `distanceTo` values, and
square root is strictly monotone, so comparisons agree. -/
def dist2 (a b : V3) : ℚ :=
  (a.x - b.x) ^ 2 + (a.y - b.y) ^ 2 + (a.z - b.z) ^ 2

/-- The inner `for j` scan of the nearest-unconnected-vertex search: skips
`i = j` and already-connected `j`, keeps the strictly closest candidate and
on ties the first found; `none` plays the role of `nearestDist = Infinity`. -/
def scanNearest (vs : List Vertex) (i : Nat) :
    List Nat → Option (Nat × ℚ) → Option (Nat × ℚ)
  | [], best => best
  | j :: rest, best =>
    if i = j ∨ j ∈ connOf vs i then scanNearest vs i rest best
    else
      let d := dist2 (vs.getD i dfltVertex).position (vs.getD j dfltVertex).position
      match best with
      | none => scanNearest vs i rest (some (j, d))
      | some (bj, bd) =>
        scanNearest vs i rest (if d < bd then (j, d) else (bj, bd))

/-- `nearestIdx` after the scan (`none` for the source's `-1`). -/
def findNearest (vs : List Vertex) (i : Nat) : Option Nat :=
  (scanNearest vs i (List.range vs.length) none).map Prod.fst

/-- `vertices[i].connections.push(j)`. -/
def pushConn (vs : List Vertex) (i j : Nat) : List Vertex :=
  vs.set i
    (let v := vs.getD i dfltVertex
     { v with connections := v.connections ++ [j] })

/-- The predicate of the source's `edges.some`/`edges.findIndex`: `e` joins
the unordered pair `{a, b}`. -/
def pairMatches (e : Edge) (a b : Nat) : Prop :=
  (e.«from» = a ∧ e.«to» = b) ∨ (e.«from» = b ∧ e.«to» = a)

instance (e : Edge) (a b : Nat) : Decidable (pairMatches e a b) := by
  unfold pairMatches; infer_instance

/-- One iteration of the `for c` loop: find the nearest unconnected vertex,
connect both directions, and append the edge unless the unordered pair is
already present. -/
def addConnectionStep (i : Nat) (st : List Vertex × List Edge) :
    List Vertex × List Edge :=
  match findNearest st.1 i with
  | none => st
  | some j =>
    let vs' := pushConn (pushConn st.1 i j) j i
    let es' := if ∃ e ∈ st.2, pairMatches e i j then st.2
      else st.2 ++ [{ «from» := i, «to» := j, glowing := false, glowIntensity := 0 }]
    (vs', es')

/-- `Math.floor(Math.random() * 2) + numConnections`, drawn after the 150
position draws. -/
def connectionsNeeded (rand : Nat → ℚ) (i : Nat) : Nat :=
  ⌊rand (3 * numVertices + i) * 2⌋.toNat + numConnections

/-- The whole graph construction of `initializePointCloud`: the vertex loop
then the doubly nested connection loop. -/
def initializePointCloud (rand : Nat → ℚ) : List Vertex × List Edge :=
  (List.range numVertices).foldl
    (fun st i =>
      (List.range (connectionsNeeded rand i)).foldl
        (fun st' _ => addConnectionStep i st') st)
    (initialVertices rand, [])

/-! ## Geometry Projector (`updateLineGeometry`, lines 224-260) -/

/-- `THREE.Color.lerp`: each channel moves by `alpha` of the gap. -/
def lerpC (a b : Color) (alpha : ℚ) : Color :=
  ⟨a.r + (b.r - a.r) * alpha, a.g + (b.g - a.g) * alpha, a.b + (b.b - a.b) * alpha⟩

/-- Rendered color of an edge endpoint: interpolation from the matte color to
the glow color by the larger of the endpoint vertex's and the edge's own glow
intensity. -/
def endpointColor (vs : List Vertex) (e : Edge) (endIdx : Nat) : Color :=
  lerpC mattColor glowColor
    (max (vs.getD endIdx dfltVertex).glowIntensity e.glowIntensity)

/-- The color buffer written by `updateLineGeometry`, two entries per edge
(`from` endpoint then `to` endpoint). -/
def lineColors (vs : List Vertex) : List Edge → List Color
  | [] => []
  | e :: rest => endpointColor vs e e.«from» :: endpointColor vs e e.«to» :: lineColors vs rest

/-! ## Lifecycle State Machine (lines 31, 83-86, 276-289) -/

inductive Stage
  | initializing
  | forming
  | stable
deriving DecidableEq

/-- Phase order: later stages rank higher. -/
def stageRank : Stage → Nat
  | .initializing => 0
  | .forming => 1
  | .stable => 2

/-- The `onComplete` callback of vertex `i`'s forming tween: only the
last-indexed vertex's callback flips the stage to `stable`. -/
def tweenComplete (n i : Nat) (st : Stage) : Stage :=
  if i = n - 1 then .stable else st

/-- Every write to `stageRef.current` after mount, with the time it fires:
the 2-second timeout sets `forming`, and each of the `n` forming tweens
(all of duration `formingDuration`, started at the timeout) fires its
completion callback; callbacks of simultaneous tweens run in index order. -/
def stageWrites (n : Nat) : List (ℚ × (Stage → Stage)) :=
  (formingDelay, fun _ => Stage.forming) ::
    (List.range n).map (fun i => (formingDelay + formingDuration, tweenComplete n i))

/-- The stage after each successive write, starting from `initializing`. -/
def stageTrace (n : Nat) : List Stage :=
  ((stageWrites n).foldl
    (fun p w => (w.2 p.1, p.2 ++ [w.2 p.1]))
    (Stage.initializing, [Stage.initializing])).2

/-! ## Glow Propagator (`startGlowingSection`, lines 301-411) -/

/-- The mutable selection state of one pulse: the `nodesToGlow` and
`edgesToGlow` accumulators and the position `k` in the draw stream. -/
structure GlowState where
  nodesToGlow : List Nat
  edgesToGlow : List Nat
  k : Nat
deriving DecidableEq

/-- `edges.findIndex` over the unordered pair `{a, b}` (`none` for `-1`). -/
def findEdgeIdx : List Edge → Nat → Nat → Option Nat
  | [], _, _ => none
  | e :: rest, a, b =>
    if pairMatches e a b then some 0 else (findEdgeIdx rest a b).map (· + 1)

/-- The already-selected branch of the neighbor loop: mark the connecting
edge for glowing unless it is already marked (`edgesToGlow.includes` check),
and leave the node list and draw counter alone. -/
def markEdgeChecked (es : List Edge) (index c : Nat) (s : GlowState) : GlowState :=
  match findEdgeIdx es index c with
  | some ei =>
    if ei ∈ s.edgesToGlow then s
    else { s with edgesToGlow := s.edgesToGlow ++ [ei] }
  | none => s

/-- The include branch of the neighbor loop: push the neighbor onto
`nodesToGlow`, mark the connecting edge when found (no duplicate check in
the source here), and advance past the consumed draw. -/
def includeNeighbor (es : List Edge) (index c : Nat) (s : GlowState) : GlowState :=
  match findEdgeIdx es index c with
  | some ei =>
    { nodesToGlow := s.nodesToGlow ++ [c], edgesToGlow := s.edgesToGlow ++ [ei],
      k := s.k + 1 }
  | none =>
    { nodesToGlow := s.nodesToGlow ++ [c], edgesToGlow := s.edgesToGlow,
      k := s.k + 1 }

/-- One iteration of the `for connectedIdx` loop of `addConnectedVertices`:
an already-selected neighbor only gets its connecting edge marked; otherwise
a draw is consumed, and on `random() > 0.7` the neighbor is included and the
recursion `rec` continues at `depth + 1` when still below the cap. -/
def visitNeighbor (es : List Edge) (rand : Nat → ℚ) (cap : Nat)
    (rec : Nat → Nat → GlowState → GlowState)
    (index depth c : Nat) (s : GlowState) : GlowState :=
  if c ∈ s.nodesToGlow then markEdgeChecked es index c s
  else if 7/10 < rand s.k then
    let s₂ := includeNeighbor es index c s
    if s₂.nodesToGlow.length < cap then rec c (depth + 1) s₂ else s₂
  else { s with k := s.k + 1 }

/-- `addConnectedVertices` with an explicit fuel bound on the recursion
nesting.  The source recursion increments `depth` on every call and bails
out past depth 2, so nesting never exceeds 4 calls from depth 0; fuel 4 is
exact (`addFuel_stable`). -/
def addFuel (vs : List Vertex) (es : List Edge) (rand : Nat → ℚ) (cap : Nat) :
    Nat → Nat → Nat → GlowState → GlowState
  | 0, _, _, s => s
  | fuel + 1, index, depth, s =>
    if 2 < depth ∨ cap ≤ s.nodesToGlow.length then s
    else
      (connOf vs index).foldl
        (fun s' c => visitNeighbor es rand cap (addFuel vs es rand cap fuel) index depth c s')
        s

/-- The source's `addConnectedVertices index depth`, run on a state. -/
def addConnectedVertices (vs : List Vertex) (es : List Edge) (rand : Nat → ℚ)
    (cap : Nat) (index : Nat) (s : GlowState) : GlowState :=
  addFuel vs es rand cap 4 index 0 s

/-- `startGlowingSection`'s selection phase: draw the start vertex, draw the
cap `Math.floor(random()*10)+5`, and expand from the seed at depth 0.
Returns the final selection state and the cap. -/
def startGlowingSection (vs : List Vertex) (es : List Edge) (rand : Nat → ℚ) :
    GlowState × Nat :=
  let startIndex := ⌊rand 0 * (vs.length : ℚ)⌋.toNat
  let maxGlowNodes := ⌊rand 1 * 10⌋.toNat + 5
  (addConnectedVertices vs es rand maxGlowNodes startIndex
    ⟨[startIndex], [], 2⟩, maxGlowNodes)

/-! ## Pulse tweens (lines 368-410): GSAP `power2.out` / `power2.in` easing
(cubic), fade-in to 1 over half `glowDuration`, fade-out to 0 over the rest. -/

def power2OutEase (t : ℚ) : ℚ := 1 - (1 - t) ^ 3

def power2InEase (t : ℚ) : ℚ := t ^ 3

/-- `glowIntensity` of a pulsed vertex as a function of time since the pulse
started: the fade-in tween on `[0, glowDuration/2]`, then the fade-out tween
chained by the fade-in's completion callback. -/
def vertexPulseIntensity (t : ℚ) : ℚ :=
  if t ≤ glowDuration / 2 then power2OutEase (t / (glowDuration / 2))
  else 1 - power2InEase ((t - glowDuration / 2) / (glowDuration / 2))

/-- The vertex when the fade-out tween completes: the tween has driven
`glowIntensity` to its end value and the completion callback clears
`glowing`. -/
def vertexAtFadeOutComplete (v : Vertex) : Vertex :=
  { v with glowIntensity := 1 - power2InEase 1, glowing := false }

/-! ## Concrete fixtures for scenario claims and counterexamples -/

/-- A vertex with a given adjacency list (positions irrelevant to the glow
propagator). -/
def mkConnVertex (cs : List Nat) : Vertex :=
  { dfltVertex with connections := cs }

def mkEdge (a b : Nat) : Edge :=
  { «from» := a, «to» := b, glowing := false, glowIntensity := 0 }

/-- The test scenario's square: 4 vertices, edges 0-1, 1-2, 2-3, 3-0. -/
def squareVs : List Vertex :=
  [mkConnVertex [1, 3], mkConnVertex [0, 2], mkConnVertex [1, 3], mkConnVertex [2, 0]]

def squareEs : List Edge :=
  [mkEdge 0 1, mkEdge 1 2, mkEdge 2 3, mkEdge 3 0]

/-- A forced "always include" random source: every draw is above 0.7. -/
def alwaysRand : Nat → ℚ := fun _ => 9/10

/-- A star around vertex 1, with vertex 0 a leaf used as the seed. -/
def starVs : List Vertex :=
  [mkConnVertex [1], mkConnVertex [0, 2, 3, 4, 5, 6], mkConnVertex [1],
   mkConnVertex [1], mkConnVertex [1], mkConnVertex [1], mkConnVertex [1]]

def starEs : List Edge :=
  [mkEdge 0 1, mkEdge 1 2, mkEdge 1 3, mkEdge 1 4, mkEdge 1 5, mkEdge 1 6]

/-- Draws for the star run: seed draw 0 (vertex 0), cap draw 0 (cap 5), then
every traversal draw 4/5, i.e. every neighbor is included. -/
def starRand : Nat → ℚ := fun k => if k ≤ 1 then 0 else 4/5

/-- A single edge 0-1. -/
def lineVs : List Vertex := [mkConnVertex [1], mkConnVertex [0]]

def lineEs : List Edge := [mkEdge 0 1]

def lineRand : Nat → ℚ := fun _ => 4/5

/-! ## Claim theorems -/

/-- C3: on the 4-vertex square graph (edges 0-1, 1-2, 2-3, 3-0), the
glow-cluster expansion seeded at vertex 0 with an always-include random
source, cap 4 and the source's depth bound selects exactly all 4 vertices
and marks all 4 edges for glowing. -/
theorem squareScenarioSelectsAll :
    (addConnectedVertices squareVs squareEs alwaysRand 4 0 ⟨[0], [], 0⟩).nodesToGlow
      = [0, 1, 2, 3] ∧
    (addConnectedVertices squareVs squareEs alwaysRand 4 0 ⟨[0], [], 0⟩).edgesToGlow
      = [0, 1, 2, 3] := by
  norm_num [addConnectedVertices, addFuel, visitNeighbor, markEdgeChecked,
    includeNeighbor, findEdgeIdx, connOf, pairMatches, squareVs, squareEs,
    mkConnVertex, mkEdge, dfltVertex, alwaysRand]

/-- C5: the stage write trace (the 2-second timeout setting `forming`, then
the completion callbacks of the 50 forming tweens, of which only the
last-indexed one sets `stable`) passes through `initializing`, `forming`,
`stable` exactly once each, in that order, and never revisits an earlier
stage; the `forming` write fires 2 seconds after activation, and only the
last-indexed vertex's completion callback flips the stage. -/
theorem lifecycleStageTransitions :
    List.destutter (· ≠ ·) (stageTrace numVertices)
      = [Stage.initializing, Stage.forming, Stage.stable] ∧
    formingDelay = 2 ∧
    (∀ st, tweenComplete numVertices (numVertices - 1) st = Stage.stable) ∧
    (∀ st i, tweenComplete numVertices i st
      = if i = numVertices - 1 then Stage.stable else st) := by
  refine ⟨rfl, rfl, fun st => by simp [tweenComplete], fun st i => rfl⟩

/-- C1 counterexample: the claim says a neighbor is skipped exactly when the
draw exceeds 0.7, but on the single-edge graph, with the draw 4/5 > 0.7,
vertex 0's neighbor 1 is included in `nodesToGlow`, not skipped: in the
source `Math.random() > 0.7` is the include condition. -/
theorem glowInclusionDrawCounterexample :
    (7/10 : ℚ) < lineRand 0 ∧
    1 ∈ (addConnectedVertices lineVs lineEs lineRand 5 0 ⟨[0], [], 0⟩).nodesToGlow := by
  constructor
  · norm_num [lineRand]
  · norm_num [addConnectedVertices, addFuel, visitNeighbor, markEdgeChecked,
      includeNeighbor, findEdgeIdx, connOf, pairMatches, lineVs, lineEs,
      mkConnVertex, mkEdge, dfltVertex, lineRand]

/-- C2 counterexample: on the star graph, a pulse seeded at vertex 0 with
cap 5 (draws: seed 0, cap 0, then always-include) selects 7 vertices, more
than the cap: the cap is checked at call entry and before recursing, but not
before each push inside the neighbor loop. -/
theorem glowCapCounterexample :
    (startGlowingSection starVs starEs starRand).2 <
      (startGlowingSection starVs starEs starRand).1.nodesToGlow.length := by
  norm_num [startGlowingSection, addConnectedVertices, addFuel, visitNeighbor,
    markEdgeChecked, includeNeighbor, findEdgeIdx, connOf, pairMatches, starVs,
    starEs, starRand, mkConnVertex, mkEdge, dfltVertex]

/-- `visitNeighbor` calls its recursion argument only at `depth + 1`. -/
theorem visitNeighbor_congr (es : List Edge) (rand : Nat → ℚ) (cap : Nat)
    (rec₁ rec₂ : Nat → Nat → GlowState → GlowState) (index depth c : Nat)
    (s : GlowState)
    (h : ∀ c' s', rec₁ c' (depth + 1) s' = rec₂ c' (depth + 1) s') :
    visitNeighbor es rand cap rec₁ index depth c s
      = visitNeighbor es rand cap rec₂ index depth c s := by
  unfold visitNeighbor
  split
  · rfl
  · split
    · simp only [h]
    · rfl

theorem foldl_visitNeighbor_congr (es : List Edge) (rand : Nat → ℚ) (cap : Nat)
    (rec₁ rec₂ : Nat → Nat → GlowState → GlowState) (index depth : Nat)
    (h : ∀ c' s', rec₁ c' (depth + 1) s' = rec₂ c' (depth + 1) s') :
    ∀ (l : List Nat) (s : GlowState),
      l.foldl (fun s' c => visitNeighbor es rand cap rec₁ index depth c s') s
        = l.foldl (fun s' c => visitNeighbor es rand cap rec₂ index depth c s') s := by
  intro l
  induction l with
  | nil => intro s; rfl
  | cons c rest ih =>
    intro s
    simp only [List.foldl_cons]
    rw [visitNeighbor_congr es rand cap rec₁ rec₂ index depth c s h, ih]

/-- Once `fuel + depth` covers the source's depth bound (`depth > 2` bails
out), the result no longer depends on the fuel. -/
theorem addFuel_congr (vs : List Vertex) (es : List Edge) (rand : Nat → ℚ)
    (cap : Nat) :
    ∀ f₁ f₂ depth index s, 3 ≤ f₁ + depth → 3 ≤ f₂ + depth →
      addFuel vs es rand cap f₁ index depth s
        = addFuel vs es rand cap f₂ index depth s := by
  intro f₁
  induction f₁ with
  | zero =>
    intro f₂ depth index s h1 h2
    match f₂ with
    | 0 => rfl
    | g + 1 =>
      have hd : 2 < depth := by omega
      simp [addFuel, hd]
  | succ f ih =>
    intro f₂ depth index s h1 h2
    match f₂ with
    | 0 =>
      have hd : 2 < depth := by omega
      simp [addFuel, hd]
    | g + 1 =>
      by_cases hc : 2 < depth ∨ cap ≤ s.nodesToGlow.length
      · simp [addFuel, hc]
      · simp only [addFuel, if_neg hc]
        exact foldl_visitNeighbor_congr es rand cap _ _ index depth
          (fun c' s' => ih g (depth + 1) c' s' (by omega) (by omega)) _ s

/-- C9: the glow-cluster traversal terminates on every graph: for every
adjacency structure, seed, cap and draw stream, the recursion (which
increments `depth` on each call and bails out past depth 2) is insensitive
to any fuel bound of at least 4, i.e. the bounded recursion has already
reached its fixed result. -/
theorem glowTraversalTerminates (vs : List Vertex) (es : List Edge)
    (rand : Nat → ℚ) (cap index : Nat) (s : GlowState) (fuel : Nat)
    (h : 4 ≤ fuel) :
    addFuel vs es rand cap fuel index 0 s
      = addConnectedVertices vs es rand cap index s :=
  addFuel_congr vs es rand cap fuel 4 0 index s (by omega) (by omega)

/-- Witness for C9 at fuel 9 on the square fixture. -/
theorem glowTraversalTerminatesWitness :
    4 ≤ 9 ∧
    addFuel squareVs squareEs alwaysRand 4 9 0 0 ⟨[0], [], 0⟩
      = addConnectedVertices squareVs squareEs alwaysRand 4 0 ⟨[0], [], 0⟩ :=
  ⟨by omega,
   glowTraversalTerminates squareVs squareEs alwaysRand 4 0 ⟨[0], [], 0⟩ 9 (by omega)⟩

/-- C6: over one pulse, a vertex's `glowIntensity` stays within `[0,1]`; the
fade-in tween drives it from 0 (at the pulse start) to 1 (at half the pulse
duration), the fade-out tween from 1 back to 0 (at the end), and when the
fade-out completes the vertex has `glowing = false` and `glowIntensity = 0`. -/
theorem pulseIntensityRange (v : Vertex) (t : ℚ) (h0 : 0 ≤ t)
    (h1 : t ≤ glowDuration) :
    (0 ≤ vertexPulseIntensity t ∧ vertexPulseIntensity t ≤ 1) ∧
    vertexPulseIntensity 0 = 0 ∧
    vertexPulseIntensity (glowDuration / 2) = 1 ∧
    vertexPulseIntensity glowDuration = 0 ∧
    (vertexAtFadeOutComplete v).glowing = false ∧
    (vertexAtFadeOutComplete v).glowIntensity = 0 := by
  refine ⟨?_, by norm_num [vertexPulseIntensity, glowDuration, power2OutEase],
    by norm_num [vertexPulseIntensity, glowDuration, power2OutEase],
    by norm_num [vertexPulseIntensity, glowDuration, power2InEase],
    rfl,
    by norm_num [vertexAtFadeOutComplete, power2InEase]⟩
  by_cases h : t ≤ glowDuration / 2
  · rw [vertexPulseIntensity, if_pos h]
    have hu : t / (glowDuration / 2) = 4/5 * t := by rw [glowDuration]; ring
    rw [power2OutEase, hu]
    norm_num [glowDuration] at h
    have ha0 : (0:ℚ) ≤ 1 - 4/5 * t := by linarith
    have ha1 : (1:ℚ) - 4/5 * t ≤ 1 := by linarith
    have hp1 : (1 - 4/5 * t) ^ 3 ≤ 1 := pow_le_one₀ ha0 ha1
    have hp0 : (0:ℚ) ≤ (1 - 4/5 * t) ^ 3 := pow_nonneg ha0 3
    constructor <;> linarith
  · rw [vertexPulseIntensity, if_neg h]
    have hu : (t - glowDuration / 2) / (glowDuration / 2) = 4/5 * t - 1 := by
      rw [glowDuration]; ring
    rw [power2InEase, hu]
    norm_num [glowDuration] at h h1
    have hb0 : (0:ℚ) ≤ 4/5 * t - 1 := by linarith
    have hb1 : (4:ℚ)/5 * t - 1 ≤ 1 := by linarith
    have hp1 : (4/5 * t - 1) ^ 3 ≤ 1 := pow_le_one₀ hb0 hb1
    have hp0 : (0:ℚ) ≤ (4/5 * t - 1) ^ 3 := pow_nonneg hb0 3
    constructor <;> linarith

/-- Witness for C6 at `t = 0` on the placeholder vertex. -/
theorem pulseIntensityRangeWitness :
    (0:ℚ) ≤ 0 ∧ (0:ℚ) ≤ glowDuration ∧
    ((0 ≤ vertexPulseIntensity 0 ∧ vertexPulseIntensity 0 ≤ 1) ∧
      vertexPulseIntensity 0 = 0 ∧
      vertexPulseIntensity (glowDuration / 2) = 1 ∧
      vertexPulseIntensity glowDuration = 0 ∧
      (vertexAtFadeOutComplete dfltVertex).glowing = false ∧
      (vertexAtFadeOutComplete dfltVertex).glowIntensity = 0) :=
  ⟨le_refl 0, by norm_num [glowDuration],
   pulseIntensityRange dfltVertex 0 (le_refl 0) (by norm_num [glowDuration])⟩

/-- C8: in the edge color buffer, each endpoint of the `i`-th edge is
rendered as the interpolation from the matte color to the glow color by the
maximum of that endpoint vertex's glow intensity and the edge's own glow
intensity, and that interpolation factor is at least each of the two. -/
theorem lineEndpointColorMax (vs : List Vertex) :
    ∀ (es : List Edge) (i : Nat) (e : Edge), es[i]? = some e →
      (lineColors vs es)[2 * i]? = some (lerpC mattColor glowColor
        (max (vs.getD e.«from» dfltVertex).glowIntensity e.glowIntensity)) ∧
      (lineColors vs es)[2 * i + 1]? = some (lerpC mattColor glowColor
        (max (vs.getD e.«to» dfltVertex).glowIntensity e.glowIntensity)) ∧
      e.glowIntensity
        ≤ max (vs.getD e.«from» dfltVertex).glowIntensity e.glowIntensity ∧
      (vs.getD e.«from» dfltVertex).glowIntensity
        ≤ max (vs.getD e.«from» dfltVertex).glowIntensity e.glowIntensity ∧
      e.glowIntensity
        ≤ max (vs.getD e.«to» dfltVertex).glowIntensity e.glowIntensity ∧
      (vs.getD e.«to» dfltVertex).glowIntensity
        ≤ max (vs.getD e.«to» dfltVertex).glowIntensity e.glowIntensity := by
  intro es
  induction es with
  | nil => intro i e h; simp at h
  | cons e' rest ih =>
    intro i e h
    match i with
    | 0 =>
      rw [List.getElem?_cons_zero, Option.some_inj] at h
      subst h
      refine ⟨?_, ?_, le_max_right _ _, le_max_left _ _,
        le_max_right _ _, le_max_left _ _⟩
      · simp [lineColors, endpointColor]
      · simp [lineColors, endpointColor]
    | i + 1 =>
      rw [List.getElem?_cons_succ] at h
      have hres := ih i e h
      refine ⟨?_, ?_, hres.2.2.1, hres.2.2.2.1, hres.2.2.2.2.1, hres.2.2.2.2.2⟩
      · rw [show 2 * (i + 1) = 2 * i + 1 + 1 by ring]
        simp only [lineColors, List.getElem?_cons_succ]
        exact hres.1
      · rw [show 2 * (i + 1) + 1 = (2 * i + 1) + 1 + 1 by ring]
        simp only [lineColors, List.getElem?_cons_succ]
        exact hres.2.1

/-- Witness for C8 on the single-edge fixture. -/
theorem lineEndpointColorMaxWitness :
    lineEs[0]? = some (mkEdge 0 1) ∧
    (lineColors lineVs lineEs)[0]? = some (lerpC mattColor glowColor
      (max (lineVs.getD 0 dfltVertex).glowIntensity 0)) :=
  ⟨by simp [lineEs],
   (lineEndpointColorMax lineVs lineEs 0 (mkEdge 0 1) (by simp [lineEs])).1⟩

/-! ## Monotonicity of the glow selection accumulators -/

theorem markEdgeChecked_nodes (es : List Edge) (index c : Nat) (s : GlowState) :
    (markEdgeChecked es index c s).nodesToGlow = s.nodesToGlow := by
  unfold markEdgeChecked
  cases h : findEdgeIdx es index c with
  | none => rfl
  | some ei =>
    dsimp only
    split <;> rfl

theorem includeNeighbor_nodes (es : List Edge) (index c : Nat) (s : GlowState) :
    (includeNeighbor es index c s).nodesToGlow = s.nodesToGlow ++ [c] := by
  unfold includeNeighbor
  cases h : findEdgeIdx es index c <;> rfl

theorem visitNeighbor_nodes_prefix (es : List Edge) (rand : Nat → ℚ) (cap : Nat)
    (rec : Nat → Nat → GlowState → GlowState) (index depth c : Nat) (s : GlowState)
    (hrecp : ∀ c' d' s', ∃ t, (rec c' d' s').nodesToGlow = s'.nodesToGlow ++ t) :
    ∃ t, (visitNeighbor es rand cap rec index depth c s).nodesToGlow
      = s.nodesToGlow ++ t := by
  unfold visitNeighbor
  by_cases h1 : c ∈ s.nodesToGlow
  · rw [if_pos h1]
    exact ⟨[], by rw [markEdgeChecked_nodes]; simp⟩
  · rw [if_neg h1]
    by_cases h2 : 7/10 < rand s.k
    · rw [if_pos h2]
      dsimp only
      split
      · obtain ⟨t, ht⟩ := hrecp c (depth + 1) (includeNeighbor es index c s)
        exact ⟨[c] ++ t, by rw [ht, includeNeighbor_nodes, List.append_assoc]⟩
      · exact ⟨[c], includeNeighbor_nodes es index c s⟩
    · rw [if_neg h2]
      exact ⟨[], by simp⟩

theorem foldl_visitNeighbor_nodes_prefix (es : List Edge) (rand : Nat → ℚ)
    (cap : Nat) (rec : Nat → Nat → GlowState → GlowState) (index depth : Nat)
    (hrecp : ∀ c' d' s', ∃ t, (rec c' d' s').nodesToGlow = s'.nodesToGlow ++ t) :
    ∀ (l : List Nat) (s : GlowState),
      ∃ t, (l.foldl (fun s' c => visitNeighbor es rand cap rec index depth c s') s).nodesToGlow
        = s.nodesToGlow ++ t := by
  intro l
  induction l with
  | nil => intro s; exact ⟨[], by simp⟩
  | cons c rest ih =>
    intro s
    simp only [List.foldl_cons]
    obtain ⟨t1, ht1⟩ := visitNeighbor_nodes_prefix es rand cap rec index depth c s hrecp
    obtain ⟨t2, ht2⟩ := ih (visitNeighbor es rand cap rec index depth c s)
    exact ⟨t1 ++ t2, by rw [ht2, ht1, List.append_assoc]⟩

/-- The node accumulator only ever grows by appending. -/
theorem addFuel_nodes_prefix (vs : List Vertex) (es : List Edge) (rand : Nat → ℚ)
    (cap : Nat) :
    ∀ fuel index depth s, ∃ t,
      (addFuel vs es rand cap fuel index depth s).nodesToGlow
        = s.nodesToGlow ++ t := by
  intro fuel
  induction fuel with
  | zero => intro index depth s; exact ⟨[], by simp [addFuel]⟩
  | succ f ih =>
    intro index depth s
    rw [addFuel]
    split
    · exact ⟨[], by simp⟩
    · exact foldl_visitNeighbor_nodes_prefix es rand cap _ index depth
        (fun c' d' s' => ih c' d' s') _ s

/-- C1 amended: for a not-yet-selected neighbor, the traversal includes the
neighbor exactly when the random draw exceeds 0.7 (`random() > 0.7` is the
include condition, probability 0.3 for a uniform draw), and skips it
otherwise (probability 0.7). -/
theorem glowInclusionIffDrawAboveThreshold (vs : List Vertex) (es : List Edge)
    (rand : Nat → ℚ) (cap fuel index depth c : Nat) (s : GlowState)
    (h : c ∉ s.nodesToGlow) :
    c ∈ (visitNeighbor es rand cap (addFuel vs es rand cap fuel) index depth c s).nodesToGlow
      ↔ 7/10 < rand s.k := by
  unfold visitNeighbor
  rw [if_neg h]
  by_cases h2 : 7/10 < rand s.k
  · rw [if_pos h2]
    simp only [h2, iff_true]
    split
    · obtain ⟨t, ht⟩ := addFuel_nodes_prefix vs es rand cap fuel c (depth + 1)
        (includeNeighbor es index c s)
      rw [ht, includeNeighbor_nodes]
      simp
    · rw [includeNeighbor_nodes]
      simp
  · rw [if_neg h2]
    simp [h, h2]

/-- Witness for the amended C1 on the single-edge fixture: the draw 4/5
exceeds 0.7 and neighbor 1 is included. -/
theorem glowInclusionIffDrawAboveThresholdWitness :
    (1 ∉ ([0] : List Nat)) ∧
    (1 ∈ (visitNeighbor lineEs lineRand 5 (addFuel lineVs lineEs lineRand 5 3)
        0 0 1 ⟨[0], [], 0⟩).nodesToGlow ↔ 7/10 < lineRand 0) :=
  ⟨by simp,
   glowInclusionIffDrawAboveThreshold lineVs lineEs lineRand 5 3 0 0 1
     ⟨[0], [], 0⟩ (by simp)⟩

/-! ## The cap bound on the selection -/

theorem foldl_visit_length_le (es : List Edge) (rand : Nat → ℚ) (cap : Nat)
    (rec : Nat → Nat → GlowState → GlowState) (index depth B : Nat)
    (hrec : ∀ c' d' s', s'.nodesToGlow.length < cap →
      (rec c' d' s').nodesToGlow.length ≤ B) :
    ∀ (l : List Nat) (s : GlowState),
      (l.foldl (fun s' c => visitNeighbor es rand cap rec index depth c s') s).nodesToGlow.length
        ≤ max s.nodesToGlow.length B + l.length := by
  intro l
  induction l with
  | nil => intro s; simp
  | cons c rest ih =>
    intro s
    simp only [List.foldl_cons, List.length_cons]
    have step : (visitNeighbor es rand cap rec index depth c s).nodesToGlow.length
        ≤ max (s.nodesToGlow.length + 1) B := by
      unfold visitNeighbor
      by_cases h1 : c ∈ s.nodesToGlow
      · rw [if_pos h1, markEdgeChecked_nodes]
        omega
      · rw [if_neg h1]
        by_cases h2 : 7/10 < rand s.k
        · rw [if_pos h2]
          dsimp only
          split
          · rename_i hlt
            exact le_trans (hrec c (depth + 1) _ hlt) (le_max_right _ _)
          · rw [includeNeighbor_nodes]
            simp only [List.length_append, List.length_cons, List.length_nil]
            omega
        · rw [if_neg h2]
          dsimp only
          omega
    have htail := ih (visitNeighbor es rand cap rec index depth c s)
    omega

theorem addFuel_length_le (vs : List Vertex) (es : List Edge) (rand : Nat → ℚ)
    (cap D : Nat) (hD : ∀ i, (connOf vs i).length ≤ D) :
    ∀ fuel index depth s,
      (addFuel vs es rand cap fuel index depth s).nodesToGlow.length
        ≤ max s.nodesToGlow.length (cap - 1 + fuel * D) := by
  intro fuel
  induction fuel with
  | zero =>
    intro index depth s
    simp only [addFuel]
    omega
  | succ f ih =>
    intro index depth s
    rw [addFuel]
    split
    · omega
    · rename_i hc
      push_neg at hc
      have hlen : s.nodesToGlow.length ≤ cap - 1 := by omega
      have hrec : ∀ c' d' s', s'.nodesToGlow.length < cap →
          (addFuel vs es rand cap f c' d' s').nodesToGlow.length
            ≤ cap - 1 + f * D := by
        intro c' d' s' hs'
        have := ih c' d' s'
        omega
      have hmain := foldl_visit_length_le es rand cap (addFuel vs es rand cap f)
        index depth (cap - 1 + f * D) hrec (connOf vs index) s
      have hd := hD index
      have hmul : (f + 1) * D = f * D + D := by ring
      omega

/-- C2 amended: the expansion stops making recursive calls once the number of
selected vertices reaches the cap (checked at call entry and before each
recursive call), but pushes inside an already running neighbor loop are not
cap-checked, so the selected total can exceed the cap; it never exceeds
`cap - 1 + 4·D`, where `D` bounds the vertex degree and 4 is the depth-bound
on call nesting. -/
theorem glowSelectionBounded (vs : List Vertex) (es : List Edge) (rand : Nat → ℚ)
    (D : Nat) (hD : ∀ i, i < vs.length → (connOf vs i).length ≤ D) :
    (startGlowingSection vs es rand).1.nodesToGlow.length
      ≤ (startGlowingSection vs es rand).2 - 1 + 4 * D := by
  have hD' : ∀ i, (connOf vs i).length ≤ D := by
    intro i
    by_cases hi : i < vs.length
    · exact hD i hi
    · have hnil : connOf vs i = [] := by
        unfold connOf
        rw [List.getD_eq_default _ _ (by omega : vs.length ≤ i)]
        rfl
      simp [hnil]
  unfold startGlowingSection addConnectedVertices
  dsimp only
  have h := addFuel_length_le vs es rand (⌊rand 1 * 10⌋.toNat + 5) D hD' 4
    (⌊rand 0 * (vs.length : ℚ)⌋.toNat) 0
    ⟨[⌊rand 0 * (vs.length : ℚ)⌋.toNat], [], 2⟩
  simp only [List.length_cons, List.length_nil] at h
  omega

/-- Witness for the amended C2 on the star fixture with degree bound 6. -/
theorem glowSelectionBoundedWitness :
    (∀ i, i < starVs.length → (connOf starVs i).length ≤ 6) ∧
    (startGlowingSection starVs starEs starRand).1.nodesToGlow.length
      ≤ (startGlowingSection starVs starEs starRand).2 - 1 + 4 * 6 :=
  ⟨by decide, glowSelectionBounded starVs starEs starRand 6 (by decide)⟩

/-! ## No duplicates within one pulse's selection -/

theorem findEdgeIdx_some :
    ∀ (es : List Edge) (a b ei : Nat), findEdgeIdx es a b = some ei →
      ∃ e, es[ei]? = some e ∧ pairMatches e a b := by
  intro es
  induction es with
  | nil => intro a b ei h; simp [findEdgeIdx] at h
  | cons e rest ih =>
    intro a b ei h
    rw [findEdgeIdx] at h
    split at h
    · rename_i hp
      rw [Option.some_inj] at h
      subst h
      exact ⟨e, by simp, hp⟩
    · rcases Option.map_eq_some'.mp h with ⟨j, hj, rfl⟩
      obtain ⟨e', he', hp⟩ := ih a b j hj
      exact ⟨e', by simpa using he', hp⟩

/-- The selection invariant of one pulse: both accumulators are
duplicate-free and every marked edge joins two already-selected vertices. -/
def GlowInv (es : List Edge) (s : GlowState) : Prop :=
  s.nodesToGlow.Nodup ∧ s.edgesToGlow.Nodup ∧
    ∀ ei ∈ s.edgesToGlow, ∀ e, es[ei]? = some e →
      e.«from» ∈ s.nodesToGlow ∧ e.«to» ∈ s.nodesToGlow

theorem markEdgeChecked_inv (es : List Edge) (index c : Nat) (s : GlowState)
    (hinv : GlowInv es s) (hidx : index ∈ s.nodesToGlow)
    (hc : c ∈ s.nodesToGlow) :
    GlowInv es (markEdgeChecked es index c s) := by
  obtain ⟨hn, hed, hend⟩ := hinv
  unfold markEdgeChecked
  cases hfe : findEdgeIdx es index c with
  | none => exact ⟨hn, hed, hend⟩
  | some ei =>
    dsimp only
    by_cases h2 : ei ∈ s.edgesToGlow
    · rw [if_pos h2]; exact ⟨hn, hed, hend⟩
    · rw [if_neg h2]
      obtain ⟨e, he, hp⟩ := findEdgeIdx_some es index c ei hfe
      refine ⟨hn, ?_, ?_⟩
      · simp [List.nodup_append, hed, h2]
      · intro ei' hmem e' he'
        rcases List.mem_append.mp hmem with hm | hm
        · exact hend ei' hm e' he'
        · have hee : ei' = ei := by simpa using hm
          subst hee
          have hee' : e' = e := by
            rw [he] at he'
            exact (Option.some_inj.mp he').symm
          subst hee'
          rcases hp with ⟨hf, ht⟩ | ⟨hf, ht⟩
          · rw [hf, ht]; exact ⟨hidx, hc⟩
          · rw [hf, ht]; exact ⟨hc, hidx⟩

theorem includeNeighbor_inv (es : List Edge) (index c : Nat) (s : GlowState)
    (hinv : GlowInv es s) (hidx : index ∈ s.nodesToGlow)
    (hc : c ∉ s.nodesToGlow) :
    GlowInv es (includeNeighbor es index c s) := by
  obtain ⟨hn, hed, hend⟩ := hinv
  unfold includeNeighbor
  cases hfe : findEdgeIdx es index c with
  | none =>
    refine ⟨?_, hed, ?_⟩
    · simp [List.nodup_append, hn, hc]
    · intro ei hmem e he
      obtain ⟨h1, h2⟩ := hend ei hmem e he
      exact ⟨List.mem_append_left _ h1, List.mem_append_left _ h2⟩
  | some ei =>
    obtain ⟨e, he, hp⟩ := findEdgeIdx_some es index c ei hfe
    have hnotin : ei ∉ s.edgesToGlow := by
      intro hmem
      obtain ⟨h1, h2⟩ := hend ei hmem e he
      rcases hp with ⟨hf, ht⟩ | ⟨hf, ht⟩
      · exact hc (ht ▸ h2)
      · exact hc (hf ▸ h1)
    refine ⟨?_, ?_, ?_⟩
    · simp [List.nodup_append, hn, hc]
    · simp [List.nodup_append, hed, hnotin]
    · intro ei' hmem e' he'
      rcases List.mem_append.mp hmem with hm | hm
      · obtain ⟨h1, h2⟩ := hend ei' hm e' he'
        exact ⟨List.mem_append_left _ h1, List.mem_append_left _ h2⟩
      · have hee : ei' = ei := by simpa using hm
        subst hee
        have hee' : e' = e := by
          rw [he] at he'
          exact (Option.some_inj.mp he').symm
        subst hee'
        rcases hp with ⟨hf, ht⟩ | ⟨hf, ht⟩
        · exact ⟨by rw [hf]; exact List.mem_append_left _ hidx, by rw [ht]; simp⟩
        · exact ⟨by rw [hf]; simp, by rw [ht]; exact List.mem_append_left _ hidx⟩

theorem visitNeighbor_inv (es : List Edge) (rand : Nat → ℚ) (cap : Nat)
    (rec : Nat → Nat → GlowState → GlowState) (index depth c : Nat)
    (s : GlowState)
    (hrec : ∀ c' d' s', GlowInv es s' → c' ∈ s'.nodesToGlow →
      GlowInv es (rec c' d' s'))
    (hrecp : ∀ c' d' s', ∃ t, (rec c' d' s').nodesToGlow = s'.nodesToGlow ++ t)
    (hinv : GlowInv es s) (hidx : index ∈ s.nodesToGlow) :
    GlowInv es (visitNeighbor es rand cap rec index depth c s) ∧
      index ∈ (visitNeighbor es rand cap rec index depth c s).nodesToGlow := by
  unfold visitNeighbor
  by_cases h1 : c ∈ s.nodesToGlow
  · rw [if_pos h1]
    exact ⟨markEdgeChecked_inv es index c s hinv hidx h1,
      by rw [markEdgeChecked_nodes]; exact hidx⟩
  · rw [if_neg h1]
    by_cases h2 : 7/10 < rand s.k
    · rw [if_pos h2]
      dsimp only
      have hinc := includeNeighbor_inv es index c s hinv hidx h1
      have hmem : index ∈ (includeNeighbor es index c s).nodesToGlow := by
        rw [includeNeighbor_nodes]; exact List.mem_append_left _ hidx
      have hcm : c ∈ (includeNeighbor es index c s).nodesToGlow := by
        rw [includeNeighbor_nodes]; simp
      split
      · refine ⟨hrec _ _ _ hinc hcm, ?_⟩
        obtain ⟨t, ht⟩ := hrecp c (depth + 1) (includeNeighbor es index c s)
        rw [ht]
        exact List.mem_append_left _ hmem
      · exact ⟨hinc, hmem⟩
    · rw [if_neg h2]
      exact ⟨hinv, hidx⟩

theorem addFuel_inv (vs : List Vertex) (es : List Edge) (rand : Nat → ℚ)
    (cap : Nat) :
    ∀ fuel index depth s, GlowInv es s → index ∈ s.nodesToGlow →
      GlowInv es (addFuel vs es rand cap fuel index depth s) := by
  intro fuel
  induction fuel with
  | zero => intro index depth s h _; simpa [addFuel] using h
  | succ f ih =>
    intro index depth s hinv hidx
    rw [addFuel]
    split
    · exact hinv
    · have key : ∀ (l : List Nat) (s' : GlowState),
          GlowInv es s' → index ∈ s'.nodesToGlow →
          GlowInv es (l.foldl
            (fun s'' c => visitNeighbor es rand cap (addFuel vs es rand cap f) index depth c s'') s') := by
        intro l
        induction l with
        | nil => intro s' h _; exact h
        | cons c rest ihl =>
          intro s' h hm
          simp only [List.foldl_cons]
          have step := visitNeighbor_inv es rand cap (addFuel vs es rand cap f)
            index depth c s'
            (fun c' d' s'' h'' hm'' => ih c' d' s'' h'' hm'')
            (fun c' d' s'' => addFuel_nodes_prefix vs es rand cap f c' d' s'')
            h hm
          exact ihl _ step.1 step.2
      exact key _ s hinv hidx

/-- C10: within a single glow pulse, the selected-vertex list and the
marked-edge list each contain no duplicates, for every graph and every draw
stream: a vertex can only be newly included once, and the edge pushes either
check membership or happen while the far endpoint was not yet selected. -/
theorem glowSelectionNodup (vs : List Vertex) (es : List Edge)
    (rand : Nat → ℚ) :
    (startGlowingSection vs es rand).1.nodesToGlow.Nodup ∧
      (startGlowingSection vs es rand).1.edgesToGlow.Nodup := by
  unfold startGlowingSection addConnectedVertices
  dsimp only
  have h := addFuel_inv vs es rand (⌊rand 1 * 10⌋.toNat + 5) 4
    (⌊rand 0 * (vs.length : ℚ)⌋.toNat) 0
    ⟨[⌊rand 0 * (vs.length : ℚ)⌋.toNat], [], 2⟩
    ⟨by simp, by simp, by intro ei hm; simp at hm⟩ (by simp)
  exact ⟨h.1, h.2.1⟩

/-! ## Graph Builder lemmas: list updates and the nearest-vertex scan -/

theorem getD_set_self {α : Type} :
    ∀ (l : List α) (i : Nat) (a d : α), i < l.length → (l.set i a).getD i d = a := by
  intro l
  induction l with
  | nil => intro i a d h; simp at h
  | cons x xs ih =>
    intro i a d h
    match i with
    | 0 => rfl
    | i + 1 =>
      rw [List.set_cons_succ, List.getD_cons_succ]
      exact ih i a d (by simpa using h)

theorem getD_set_ne {α : Type} :
    ∀ (l : List α) (i j : Nat) (a d : α), i ≠ j →
      (l.set i a).getD j d = l.getD j d := by
  intro l
  induction l with
  | nil => intro i j a d _; rfl
  | cons x xs ih =>
    intro i j a d h
    match i, j with
    | 0, 0 => exact absurd rfl h
    | 0, j + 1 => rw [List.set_cons_zero, List.getD_cons_succ, List.getD_cons_succ]
    | i + 1, 0 => rw [List.set_cons_succ, List.getD_cons_zero, List.getD_cons_zero]
    | i + 1, j + 1 =>
      rw [List.set_cons_succ, List.getD_cons_succ, List.getD_cons_succ]
      exact ih i j a d (by omega)

theorem pushConn_length (vs : List Vertex) (i j : Nat) :
    (pushConn vs i j).length = vs.length := by
  simp [pushConn]

theorem connOf_pushConn_self (vs : List Vertex) (i j : Nat) (h : i < vs.length) :
    connOf (pushConn vs i j) i = connOf vs i ++ [j] := by
  unfold connOf pushConn
  rw [getD_set_self _ _ _ _ h]

theorem connOf_pushConn_ne (vs : List Vertex) (i j a : Nat) (h : i ≠ a) :
    connOf (pushConn vs i j) a = connOf vs a := by
  unfold connOf pushConn
  rw [getD_set_ne _ _ _ _ _ h]

/-- `pushConn` only rewrites a connection list: every vertex of the result
shares its position fields with a vertex of the input. -/
theorem pushConn_mem (vs : List Vertex) (i j : Nat) :
    ∀ v ∈ pushConn vs i j, ∃ w ∈ vs,
      v.position = w.position ∧ v.initialPosition = w.initialPosition := by
  intro v hv
  by_cases hi : i < vs.length
  · unfold pushConn at hv
    rcases List.mem_or_eq_of_mem_set hv with h | h
    · exact ⟨v, h, rfl, rfl⟩
    · subst h
      refine ⟨vs.getD i dfltVertex, ?_, rfl, rfl⟩
      rw [List.getD_eq_getElem _ _ hi]
      exact List.getElem_mem _
  · rw [pushConn, List.set_eq_of_length_le (by omega)] at hv
    exact ⟨v, hv, rfl, rfl⟩

theorem scanNearest_mem (vs : List Vertex) (i : Nat) :
    ∀ (js : List Nat) (best : Option (Nat × ℚ)) (j : Nat) (d : ℚ),
      scanNearest vs i js best = some (j, d) →
      best = some (j, d) ∨ (j ∈ js ∧ j ≠ i) := by
  intro js
  induction js with
  | nil => intro best j d h; exact Or.inl h
  | cons j0 rest ih =>
    intro best j d h
    rw [scanNearest] at h
    split at h
    · rcases ih best j d h with h' | h'
      · exact Or.inl h'
      · exact Or.inr ⟨List.mem_cons_of_mem _ h'.1, h'.2⟩
    · rename_i hskip
      push_neg at hskip
      cases best with
      | none =>
        rcases ih _ j d h with h' | h'
        · simp only [Option.some_inj, Prod.mk.injEq] at h'
          refine Or.inr ⟨?_, ?_⟩
          · rw [← h'.1]; exact List.mem_cons_self _ _
          · rw [← h'.1]; exact Ne.symm hskip.1
        · exact Or.inr ⟨List.mem_cons_of_mem _ h'.1, h'.2⟩
      | some p =>
        obtain ⟨bj, bd⟩ := p
        rcases ih _ j d h with h' | h'
        · split at h'
          · simp only [Option.some_inj, Prod.mk.injEq] at h'
            refine Or.inr ⟨?_, ?_⟩
            · rw [← h'.1]; exact List.mem_cons_self _ _
            · rw [← h'.1]; exact Ne.symm hskip.1
          · exact Or.inl h'
        · exact Or.inr ⟨List.mem_cons_of_mem _ h'.1, h'.2⟩

theorem findNearest_some (vs : List Vertex) (i j : Nat)
    (h : findNearest vs i = some j) : j < vs.length ∧ j ≠ i := by
  unfold findNearest at h
  rcases Option.map_eq_some'.mp h with ⟨⟨j', d⟩, hscan, hj⟩
  dsimp at hj
  subst hj
  rcases scanNearest_mem vs i (List.range vs.length) none j' d hscan with h' | h'
  · exact absurd h' (by simp)
  · exact ⟨List.mem_range.mp h'.1, h'.2⟩

/-! ## Graph Builder invariants -/

/-- The structural invariant of the construction: 50 vertices, no self-loop
edges, no duplicate unordered pairs, symmetric adjacency, and every edge's
endpoints recorded in each other's connection lists. -/
def BuilderInv (st : List Vertex × List Edge) : Prop :=
  st.1.length = numVertices ∧
  (∀ e ∈ st.2, e.«from» ≠ e.«to») ∧
  st.2.Pairwise (fun a b => ¬ pairMatches a b.«from» b.«to») ∧
  (∀ a b, b ∈ connOf st.1 a ↔ a ∈ connOf st.1 b) ∧
  (∀ e ∈ st.2, e.«to» ∈ connOf st.1 e.«from» ∧ e.«from» ∈ connOf st.1 e.«to»)

theorem addConnectionStep_inv (i : Nat) (st : List Vertex × List Edge)
    (h : BuilderInv st) (hi : i < numVertices) :
    BuilderInv (addConnectionStep i st) := by
  obtain ⟨hlen, hself, hdup, hsym, hconn⟩ := h
  unfold addConnectionStep
  cases hfn : findNearest st.1 i with
  | none => exact ⟨hlen, hself, hdup, hsym, hconn⟩
  | some j =>
    dsimp only
    obtain ⟨hjlen, hji⟩ := findNearest_some st.1 i j hfn
    have hilen : i < st.1.length := by omega
    have hij : i ≠ j := fun hh => hji hh.symm
    have hcompute : ∀ a, connOf (pushConn (pushConn st.1 i j) j i) a
        = if a = i then connOf st.1 i ++ [j]
          else if a = j then connOf st.1 j ++ [i] else connOf st.1 a := by
      intro a
      by_cases hai : a = i
      · subst hai
        rw [if_pos rfl, connOf_pushConn_ne _ _ _ _ (fun hh => hij hh.symm),
          connOf_pushConn_self st.1 a j hilen]
      · rw [if_neg hai]
        by_cases haj : a = j
        · subst haj
          rw [if_pos rfl,
            connOf_pushConn_self _ a i (by rw [pushConn_length]; omega),
            connOf_pushConn_ne st.1 _ _ _ hij]
        · rw [if_neg haj, connOf_pushConn_ne _ _ _ _ (fun hh => haj hh.symm),
            connOf_pushConn_ne st.1 _ _ _ (fun hh => hai hh.symm)]
    have hmem : ∀ a b, b ∈ connOf (pushConn (pushConn st.1 i j) j i) a
        ↔ (b ∈ connOf st.1 a ∨ (a = i ∧ b = j) ∨ (a = j ∧ b = i)) := by
      intro a b
      rw [hcompute a]
      split_ifs with h1 h2
      · subst h1
        simp only [List.mem_append, List.mem_singleton]
        constructor
        · rintro (hb | hb)
          · exact Or.inl hb
          · exact Or.inr (Or.inl ⟨by trivial, hb⟩)
        · rintro (hb | hb | hb)
          · exact Or.inl hb
          · exact Or.inr hb.2
          · exact absurd hb.1 hij
      · subst h2
        simp only [List.mem_append, List.mem_singleton]
        constructor
        · rintro (hb | hb)
          · exact Or.inl hb
          · exact Or.inr (Or.inr ⟨by trivial, hb⟩)
        · rintro (hb | hb | hb)
          · exact Or.inl hb
          · exact absurd hb.1 h1
          · exact Or.inr hb.2
      · constructor
        · exact fun hb => Or.inl hb
        · rintro (hb | hb | hb)
          · exact hb
          · exact absurd hb.1 h1
          · exact absurd hb.1 h2
    refine ⟨?_, ?_, ?_, ?_, ?_⟩
    · rw [pushConn_length, pushConn_length]; exact hlen
    · intro e he
      by_cases hex : ∃ e' ∈ st.2, pairMatches e' i j
      · rw [if_pos hex] at he
        exact hself e he
      · rw [if_neg hex] at he
        rcases List.mem_append.mp he with hm | hm
        · exact hself e hm
        · have : e = { «from» := i, «to» := j, glowing := false, glowIntensity := 0 } := by
            simpa using hm
          subst this
          exact hij
    · by_cases hex : ∃ e' ∈ st.2, pairMatches e' i j
      · rw [if_pos hex]
        exact hdup
      · rw [if_neg hex]
        push_neg at hex
        rw [List.pairwise_append]
        refine ⟨hdup, List.pairwise_singleton _ _, ?_⟩
        intro a ha b hb
        have : b = { «from» := i, «to» := j, glowing := false, glowIntensity := 0 } := by
          simpa using hb
        subst this
        exact hex a ha
    · intro a b
      rw [hmem a b, hmem b a]
      constructor
      · rintro (hb | ⟨h1, h2⟩ | ⟨h1, h2⟩)
        · exact Or.inl ((hsym a b).mp hb)
        · exact Or.inr (Or.inr ⟨h2, h1⟩)
        · exact Or.inr (Or.inl ⟨h2, h1⟩)
      · rintro (hb | ⟨h1, h2⟩ | ⟨h1, h2⟩)
        · exact Or.inl ((hsym b a).mp hb)
        · exact Or.inr (Or.inr ⟨h2, h1⟩)
        · exact Or.inr (Or.inl ⟨h2, h1⟩)
    · intro e he
      by_cases hex : ∃ e' ∈ st.2, pairMatches e' i j
      · rw [if_pos hex] at he
        obtain ⟨h1, h2⟩ := hconn e he
        exact ⟨(hmem _ _).mpr (Or.inl h1), (hmem _ _).mpr (Or.inl h2)⟩
      · rw [if_neg hex] at he
        rcases List.mem_append.mp he with hm | hm
        · obtain ⟨h1, h2⟩ := hconn e hm
          exact ⟨(hmem _ _).mpr (Or.inl h1), (hmem _ _).mpr (Or.inl h2)⟩
        · have : e = { «from» := i, «to» := j, glowing := false, glowIntensity := 0 } := by
            simpa using hm
          subst this
          exact ⟨(hmem _ _).mpr (Or.inr (Or.inl ⟨rfl, rfl⟩)),
            (hmem _ _).mpr (Or.inr (Or.inr ⟨rfl, rfl⟩))⟩

/-- Folding a step that preserves a predicate preserves it. -/
theorem foldl_preserves {α β : Type} (P : β → Prop) (f : β → α → β) :
    ∀ (l : List α) (b : β),
      (∀ x ∈ l, ∀ b', P b' → P (f b' x)) → P b → P (l.foldl f b) := by
  intro l
  induction l with
  | nil => intro b _ hb; exact hb
  | cons x xs ih =>
    intro b hstep hb
    simp only [List.foldl_cons]
    exact ih _ (fun y hy b' => hstep y (List.mem_cons_of_mem _ hy) b')
      (hstep x (List.mem_cons_self _ _) b hb)

theorem length_initialVertices (rand : Nat → ℚ) :
    (initialVertices rand).length = numVertices := by
  simp [initialVertices]

theorem connOf_initialVertices (rand : Nat → ℚ) (a : Nat) :
    connOf (initialVertices rand) a = [] := by
  unfold connOf initialVertices
  by_cases ha : a < numVertices
  · rw [List.getD_eq_getElem _ _ (by simpa using ha)]
    simp [mkVertex]
  · rw [List.getD_eq_default _ _ (by simpa using Nat.le_of_not_lt ha)]
    rfl

theorem initializePointCloud_inv (rand : Nat → ℚ) :
    BuilderInv (initializePointCloud rand) := by
  unfold initializePointCloud
  refine foldl_preserves BuilderInv _ (List.range numVertices) _ ?_ ?_
  · intro i hi st' hst'
    exact foldl_preserves BuilderInv _ _ _
      (fun _ _ st'' h'' => addConnectionStep_inv i st'' h'' (List.mem_range.mp hi))
      hst'
  · refine ⟨length_initialVertices rand, by simp, by simp, ?_, by simp⟩
    intro a b
    rw [connOf_initialVertices, connOf_initialVertices]
    simp

/-- C4: for every draw stream, the constructed graph has exactly 50 vertices,
no edge joins a vertex to itself, no two edges share the same unordered pair
of endpoints, adjacency is symmetric, and every edge's endpoints appear in
each other's connection lists. -/
theorem builderGraphInvariants (rand : Nat → ℚ) :
    (initializePointCloud rand).1.length = 50 ∧
    (∀ e ∈ (initializePointCloud rand).2, e.«from» ≠ e.«to») ∧
    (initializePointCloud rand).2.Pairwise
      (fun a b => ¬ pairMatches a b.«from» b.«to») ∧
    (∀ a b, b ∈ connOf (initializePointCloud rand).1 a
      ↔ a ∈ connOf (initializePointCloud rand).1 b) ∧
    (∀ e ∈ (initializePointCloud rand).2,
      e.«to» ∈ connOf (initializePointCloud rand).1 e.«from» ∧
      e.«from» ∈ connOf (initializePointCloud rand).1 e.«to») :=
  initializePointCloud_inv rand

/-! ## Positions inside the ellipsoid -/

/-- Membership in the ellipsoid with semi-axis `cloudRadius` in x and y and
half that in z. -/
def inEllipsoid (p : V3) : Prop :=
  p.x ^ 2 / cloudRadius ^ 2 + p.y ^ 2 / cloudRadius ^ 2
    + p.z ^ 2 / (cloudRadius / 2) ^ 2 ≤ 1

/-- What the builder maintains about each vertex's position fields. -/
def posOK (v : Vertex) : Prop :=
  v.position = v.initialPosition ∧ inEllipsoid v.initialPosition

theorem addConnectionStep_fst (i : Nat) (st : List Vertex × List Edge) :
    (addConnectionStep i st).1 = st.1 ∨
      ∃ j, (addConnectionStep i st).1 = pushConn (pushConn st.1 i j) j i := by
  unfold addConnectionStep
  cases hfn : findNearest st.1 i with
  | none => exact Or.inl rfl
  | some j => exact Or.inr ⟨j, rfl⟩

theorem addConnectionStep_posOK (i : Nat) (st : List Vertex × List Edge)
    (h : ∀ v ∈ st.1, posOK v) : ∀ v ∈ (addConnectionStep i st).1, posOK v := by
  intro v hv
  rcases addConnectionStep_fst i st with hfst | ⟨j, hfst⟩
  · rw [hfst] at hv
    exact h v hv
  · rw [hfst] at hv
    obtain ⟨w, hw, hp1, hp2⟩ := pushConn_mem _ _ _ v hv
    obtain ⟨u, hu, hq1, hq2⟩ := pushConn_mem _ _ _ w hw
    obtain ⟨he, hell⟩ := h u hu
    exact ⟨by rw [hp1, hp2, hq1, hq2]; exact he, by rw [hp2, hq2]; exact hell⟩

theorem mkVertex_posOK (rand : Nat → ℚ) (hr : ∀ k, 0 ≤ rand k ∧ rand k < 1)
    (a : Nat) : posOK (mkVertex rand a) := by
  refine ⟨rfl, ?_⟩
  obtain ⟨hx0, hx1⟩ := hr (3 * a)
  obtain ⟨hy0, hy1⟩ := hr (3 * a + 1)
  obtain ⟨hz0, hz1⟩ := hr (3 * a + 2)
  have bx : (rand (3 * a) - 1/2) ^ 2 ≤ 1/4 := by nlinarith
  have bz : (rand (3 * a + 1) - 1/2) ^ 2 ≤ 1/4 := by nlinarith
  have bw : (rand (3 * a + 2) - 1/2) ^ 2 ≤ 1/4 := by nlinarith
  unfold inEllipsoid mkVertex cloudRadius
  dsimp only
  norm_num
  nlinarith [bx, bz, bw]

theorem initialVertices_posOK (rand : Nat → ℚ)
    (hr : ∀ k, 0 ≤ rand k ∧ rand k < 1) :
    ∀ v ∈ initialVertices rand, posOK v := by
  intro v hv
  rcases List.mem_map.mp hv with ⟨a, _, rfl⟩
  exact mkVertex_posOK rand hr a

theorem initializePointCloud_posOK (rand : Nat → ℚ)
    (hr : ∀ k, 0 ≤ rand k ∧ rand k < 1) :
    ∀ v ∈ (initializePointCloud rand).1, posOK v := by
  unfold initializePointCloud
  refine foldl_preserves
    (fun st : List Vertex × List Edge => ∀ v ∈ st.1, posOK v) _ _ _ ?_
    (initialVertices_posOK rand hr)
  intro i _ st' h'
  exact foldl_preserves
    (fun st : List Vertex × List Edge => ∀ v ∈ st.1, posOK v) _ _ _
    (fun _ _ st'' h'' => addConnectionStep_posOK i st'' h'') h'

/-- C7: for draws in `[0,1)`, every vertex the graph builder produces keeps
its drawn position (`position = initialPosition`) and that position lies in
the ellipsoid of radius `cloudRadius` in x and y and half that radius in z. -/
theorem builderPositionsInEllipsoid (rand : Nat → ℚ) (i : Nat)
    (hr : ∀ k, 0 ≤ rand k ∧ rand k < 1) (hi : i < numVertices) :
    inEllipsoid ((initializePointCloud rand).1.getD i dfltVertex).initialPosition ∧
    ((initializePointCloud rand).1.getD i dfltVertex).position
      = ((initializePointCloud rand).1.getD i dfltVertex).initialPosition := by
  have hlen : (initializePointCloud rand).1.length = numVertices :=
    (initializePointCloud_inv rand).1
  have hmem : (initializePointCloud rand).1.getD i dfltVertex
      ∈ (initializePointCloud rand).1 := by
    rw [List.getD_eq_getElem _ _ (by omega)]
    exact List.getElem_mem _
  have h := initializePointCloud_posOK rand hr _ hmem
  exact ⟨h.2, h.1⟩

/-- A forced half-way draw stream for the witness. -/
def halfRand : Nat → ℚ := fun _ => 1/2

/-- Witness for C7 at index 0 of the half-way stream. -/
theorem builderPositionsInEllipsoidWitness :
    inEllipsoid ((initializePointCloud halfRand).1.getD 0 dfltVertex).initialPosition ∧
    ((initializePointCloud halfRand).1.getD 0 dfltVertex).position
      = ((initializePointCloud halfRand).1.getD 0 dfltVertex).initialPosition :=
  builderPositionsInEllipsoid halfRand 0 (fun k => by norm_num [halfRand])
    (by norm_num [numVertices])

end PointCloud
